import Mathlib

/-!
Verification of the DuckyRecorder event-compilation pipeline
(`DuckyRecorder.py`, class `EventRecorder`).

The Python code records keyboard/mouse events as dictionaries, computes
per-event delays at save time, and compiles the timeline into Arduino
device instructions.  Events are embedded as a structure whose fields are
the dictionary keys the pipeline reads (`type`, `t`, `key`, `button`,
`dx`, `dy`, `delay`); an absent dictionary key is modelled by the field
default, matching the `event.get(field, default)` reads in the source.
-/

/-- Recorded canonical event: embedding of the event dictionaries built by
`EventRecorder` (`_add_event` callers).  The `delay` field is the one added
by `save_recording`; it defaults to `0` exactly as `event.get("delay", 0)`
does in `export_for_arduino`. -/
structure RecEvent where
  type : String
  t : Int
  key : String := ""
  button : String := ""
  dx : Int := 0
  dy : Int := 0
  delay : Int := 0
deriving DecidableEq, Inhabited

/-- Compiled Arduino instruction: embedding of the `arduino_events`
dictionaries produced by `export_for_arduino` (tag `type` plus the
tag-specific payload and a `delay`). -/
inductive AEvent where
  | keyPress (key : String) (delay : Int)
  | keyRelease (key : String) (delay : Int)
  | mouseMove (dx dy delay : Int)
  | mousePress (button : String) (delay : Int)
  | mouseRelease (button : String) (delay : Int)
  | mouseScroll (amount delay : Int)
deriving DecidableEq, Inhabited

/-- The `delay` entry of a compiled instruction. -/
def AEvent.delay : AEvent → Int
  | .keyPress _ d => d
  | .keyRelease _ d => d
  | .mouseMove _ _ d => d
  | .mousePress _ d => d
  | .mouseRelease _ d => d
  | .mouseScroll _ d => d

/-- Overwriting the `delay` entry of a compiled instruction
(the `ev["delay"] = 0` mutation in the delay post-pass). -/
def AEvent.setDelay : AEvent → Int → AEvent
  | .keyPress k _, d => .keyPress k d
  | .keyRelease k _, d => .keyRelease k d
  | .mouseMove x y _, d => .mouseMove x y d
  | .mousePress b _, d => .mousePress b d
  | .mouseRelease b _, d => .mouseRelease b d
  | .mouseScroll a _, d => .mouseScroll a d

/-- One iteration per constructor application: this is the
`while remaining > 0` loop of `EventRecorder._calculate_steps`
(lines 825-829).  `fuel` bounds the number of iterations; the Python loop
terminates exactly when `max_step ≥ 1` (or `remaining = 0`), in which case
it runs at most `remaining` iterations since each one subtracts at least 1,
so calling this with `fuel = remaining` reproduces the loop exactly in
every terminating case. -/
def calcStepsGo (max_step : Nat) (direction : Int) : Nat → Nat → List Int
  | 0, _ => []
  | _, 0 => []
  | fuel + 1, remaining + 1 =>
    let step := min (remaining + 1) max_step
    (step : Int) * direction :: calcStepsGo max_step direction fuel (remaining + 1 - step)

/-- Embedding of `EventRecorder._calculate_steps` (lines 816-830):
greedy largest-step-first split of a signed displacement into steps of
magnitude at most `max_step`. -/
def calculate_steps (value : Int) (max_step : Nat) : List Int :=
  if value = 0 then []
  else
    let direction : Int := if 0 < value then 1 else -1
    calcStepsGo max_step direction value.natAbs value.natAbs

/-- Embedding of `EventRecorder._split_mouse_move` (lines 799-814):
decompose each axis independently, then pair the two step lists
positionally, padding the shorter one with `0`
(`steps_x[i] if i < len(steps_x) else 0`). -/
def split_mouse_move (dx dy : Int) (max_step : Nat) : List (Int × Int) :=
  let steps_x := calculate_steps dx max_step
  let steps_y := calculate_steps dy max_step
  let max_steps := max steps_x.length steps_y.length
  (List.range max_steps).map (fun i => (steps_x.getD i 0, steps_y.getD i 0))

theorem calcStepsGo_sum (max_step : Nat) (d : Int) (hm : 1 ≤ max_step) :
    ∀ (fuel r : Nat), r ≤ fuel → (calcStepsGo max_step d fuel r).sum = (r : Int) * d
  | 0, 0, _ => by simp [calcStepsGo]
  | 0, r + 1, h => absurd h (by omega)
  | fuel + 1, 0, _ => by simp [calcStepsGo]
  | fuel + 1, r + 1, h => by
    have hs : min (r + 1) max_step ≤ r + 1 := Nat.min_le_left _ _
    have h1 : 1 ≤ min (r + 1) max_step := by omega
    have ih := calcStepsGo_sum max_step d hm fuel (r + 1 - min (r + 1) max_step) (by omega)
    simp only [calcStepsGo, List.sum_cons, ih]
    rw [← add_mul]
    have hcast : ((min (r + 1) max_step : Nat) : Int)
        + ((r + 1 - min (r + 1) max_step : Nat) : Int) = ((r + 1 : Nat) : Int) := by omega
    rw [hcast]

theorem calcStepsGo_mem (max_step : Nat) (d : Int) (hm : 1 ≤ max_step) :
    ∀ (fuel r : Nat) (s : Int), s ∈ calcStepsGo max_step d fuel r →
      ∃ st : Nat, 1 ≤ st ∧ st ≤ max_step ∧ s = (st : Int) * d
  | 0, _, s, hs => by simp [calcStepsGo] at hs
  | _ + 1, 0, s, hs => by simp [calcStepsGo] at hs
  | fuel + 1, r + 1, s, hs => by
    simp only [calcStepsGo, List.mem_cons] at hs
    rcases hs with hhead | htail
    · exact ⟨min (r + 1) max_step, by omega, Nat.min_le_right _ _, hhead⟩
    · exact calcStepsGo_mem max_step d hm fuel (r + 1 - min (r + 1) max_step) s htail

theorem calculate_steps_sum (value : Int) (max_step : Nat) (hm : 1 ≤ max_step) :
    (calculate_steps value max_step).sum = value := by
  by_cases hv : value = 0
  · simp [calculate_steps, hv]
  · simp only [calculate_steps, if_neg hv]
    rw [calcStepsGo_sum max_step _ hm value.natAbs value.natAbs le_rfl]
    by_cases hp : 0 < value
    · simp only [if_pos hp]; omega
    · simp only [if_neg hp]; omega

theorem calculate_steps_mem (value : Int) (max_step : Nat) (hm : 1 ≤ max_step)
    (s : Int) (hs : s ∈ calculate_steps value max_step) :
    s.natAbs ≤ max_step ∧ s ≠ 0 ∧ (0 < value → 0 < s) ∧ (value < 0 → s < 0) := by
  by_cases hv : value = 0
  · simp [calculate_steps, hv] at hs
  · simp only [calculate_steps, if_neg hv] at hs
    obtain ⟨st, h1, h2, rfl⟩ := calcStepsGo_mem max_step _ hm value.natAbs value.natAbs s hs
    by_cases hp : 0 < value
    · simp only [if_pos hp, mul_one]
      refine ⟨by omega, by omega, fun _ => by omega, fun hneg => by omega⟩
    · simp only [if_neg hp, mul_neg_one]
      refine ⟨by omega, by omega, fun hpos => absurd hpos hp, fun _ => by omega⟩

theorem getD_range_map {α : Type} (f : Nat → α) (n i : Nat) (d : α) :
    ((List.range n).map f).getD i d = if i < n then f i else d := by
  rw [List.getD_eq_getElem?_getD, List.getElem?_map]
  by_cases h : i < n
  · rw [List.getElem?_range h]
    simp [h]
  · rw [List.getElem?_eq_none (by simpa using (Nat.le_of_not_lt h))]
    simp [h]

theorem sum_range_getD (l : List Int) : ∀ (n : Nat), l.length ≤ n →
    ((List.range n).map (fun i => l.getD i 0)).sum = l.sum := by
  induction l with
  | nil =>
    intro n _
    apply List.sum_eq_zero
    intro x hx
    rcases List.mem_map.mp hx with ⟨i, _, hxi⟩
    simpa [List.getD_nil] using hxi.symm
  | cons x xs ih =>
    intro n hn
    cases n with
    | zero => simp at hn
    | succ nn =>
      rw [List.range_succ_eq_map, List.map_cons, List.map_map, List.sum_cons]
      have he : ((fun i => (x :: xs).getD i 0) ∘ Nat.succ) = fun i => xs.getD i 0 := by
        funext i
        simp [Function.comp, List.getD_cons_succ]
      rw [he, ih nn (by simpa using hn)]
      simp [List.getD_cons_zero]

theorem getD_natAbs_le (l : List Int) (m : Nat) (hl : ∀ s ∈ l, s.natAbs ≤ m) (i : Nat) :
    (l.getD i 0).natAbs ≤ m := by
  induction l generalizing i with
  | nil => simp [List.getD_nil]
  | cons x xs ih =>
    cases i with
    | zero => rw [List.getD_cons_zero]; exact hl x (List.mem_cons_self x xs)
    | succ j =>
      rw [List.getD_cons_succ]
      exact ih (fun s hs => hl s (List.mem_cons_of_mem x hs)) j

theorem getD_mem_of_lt (l : List Int) (i : Nat) (h : i < l.length) : l.getD i 0 ∈ l := by
  rw [List.getD_eq_getElem l 0 h]
  exact List.getElem_mem h

/-- C2: for every integer pair `(dx, dy)` and every `max_step ≥ 1`, the motion
decomposition `_split_mouse_move` / `_calculate_steps` emits steps whose signed
per-axis sums equal `dx` and `dy`; every emitted step has absolute value at
most `max_step`; each axis is split greedily largest-step-first
(`300 → 127, 127, 46`); the two axes' step lists are paired positionally with
the shorter axis padded with zeros; the result length is the max of the two
per-axis step counts; and decomposing `(0, 0)` yields the empty sequence. -/
theorem c2_motion_decomposer (dx dy : Int) (max_step : Nat) (hm : 1 ≤ max_step) :
    ((split_mouse_move dx dy max_step).map Prod.fst).sum = dx
  ∧ ((split_mouse_move dx dy max_step).map Prod.snd).sum = dy
  ∧ (∀ p ∈ split_mouse_move dx dy max_step, p.1.natAbs ≤ max_step ∧ p.2.natAbs ≤ max_step)
  ∧ calculate_steps 300 127 = [127, 127, 46]
  ∧ (split_mouse_move dx dy max_step).length
      = max (calculate_steps dx max_step).length (calculate_steps dy max_step).length
  ∧ (∀ i : Nat, (split_mouse_move dx dy max_step).getD i (0, 0)
      = ((calculate_steps dx max_step).getD i 0, (calculate_steps dy max_step).getD i 0))
  ∧ split_mouse_move 0 0 max_step = [] := by
  have hx := calculate_steps_sum dx max_step hm
  have hy := calculate_steps_sum dy max_step hm
  refine ⟨?_, ?_, ?_, by decide, ?_, ?_, rfl⟩
  · rw [split_mouse_move, List.map_map]
    have he : (Prod.fst ∘ fun i =>
        ((calculate_steps dx max_step).getD i 0, (calculate_steps dy max_step).getD i 0))
        = fun i => (calculate_steps dx max_step).getD i 0 := rfl
    rw [he, sum_range_getD _ _ (Nat.le_max_left _ _), hx]
  · rw [split_mouse_move, List.map_map]
    have he : (Prod.snd ∘ fun i =>
        ((calculate_steps dx max_step).getD i 0, (calculate_steps dy max_step).getD i 0))
        = fun i => (calculate_steps dy max_step).getD i 0 := rfl
    rw [he, sum_range_getD _ _ (Nat.le_max_right _ _), hy]
  · intro p hp
    rw [split_mouse_move] at hp
    rcases List.mem_map.mp hp with ⟨i, _, hpi⟩
    subst hpi
    constructor
    · exact getD_natAbs_le _ _ (fun s hs => (calculate_steps_mem dx max_step hm s hs).1) i
    · exact getD_natAbs_le _ _ (fun s hs => (calculate_steps_mem dy max_step hm s hs).1) i
  · rw [split_mouse_move]
    simp
  · intro i
    rw [split_mouse_move]
    rw [getD_range_map]
    by_cases h : i < max (calculate_steps dx max_step).length (calculate_steps dy max_step).length
    · simp [h]
    · have hix : (calculate_steps dx max_step).length ≤ i := by omega
      have hiy : (calculate_steps dy max_step).length ≤ i := by omega
      rw [if_neg h]
      rw [List.getD_eq_getElem?_getD, List.getElem?_eq_none hix]
      rw [List.getD_eq_getElem?_getD, List.getElem?_eq_none hiy]
      rfl

/-- Witness for `c2_motion_decomposer`: evaluated at `dx = 300`, `dy = -5`,
`max_step = 127`, the emitted horizontal steps sum to `300`. -/
theorem c2_motion_decomposer_witness :
    ((split_mouse_move 300 (-5) 127).map Prod.fst).sum = 300 :=
  (c2_motion_decomposer 300 (-5) 127 (by decide)).1

/-- C10: for `max_step ≥ 1`, every pair emitted by `_split_mouse_move` has at
least one nonzero component, and every per-axis step produced by
`_calculate_steps` is nonzero with the same sign as its axis input. -/
theorem c10_no_zero_moves (dx dy : Int) (max_step : Nat) (hm : 1 ≤ max_step) :
    (∀ p ∈ split_mouse_move dx dy max_step, p.1 ≠ 0 ∨ p.2 ≠ 0)
  ∧ (∀ (v : Int), ∀ s ∈ calculate_steps v max_step,
        s ≠ 0 ∧ (0 < v → 0 < s) ∧ (v < 0 → s < 0)) := by
  constructor
  · intro p hp
    rw [split_mouse_move] at hp
    rcases List.mem_map.mp hp with ⟨i, hir, hpi⟩
    subst hpi
    have hilt := List.mem_range.mp hir
    by_cases hx : i < (calculate_steps dx max_step).length
    · left
      exact (calculate_steps_mem dx max_step hm _
        (getD_mem_of_lt _ i hx)).2.1
    · right
      have hy : i < (calculate_steps dy max_step).length := by omega
      exact (calculate_steps_mem dy max_step hm _
        (getD_mem_of_lt _ i hy)).2.1
  · intro v s hs
    exact (calculate_steps_mem v max_step hm s hs).2

/-- Witness for `c10_no_zero_moves`: the first emitted pair for
`(300, -5)` with `max_step = 127` has a nonzero component. -/
theorem c10_no_zero_moves_witness :
    (127, -5) ∈ split_mouse_move 300 (-5) 127 ∧ ((127 : Int) ≠ 0 ∨ (-5 : Int) ≠ 0) :=
  ⟨by decide, (c10_no_zero_moves 300 (-5) 127 (by decide)).1 (127, -5) (by decide)⟩

/-- Single-quote character, used by the code to wrap 1-character keys into
Arduino character literals. -/
def squote : String := (Char.ofNat 39).toString

/-- Embedding of the `escapes` dictionary of `EventRecorder._escape_char`
(lines 783-797); keys and values are the 1-character strings / C escape
sequences of the source. -/
def escapes : List (String × String) :=
  [("\n", "\\n"),
   ("\r", "\\r"),
   ("\t", "\\t"),
   (squote, "\\" ++ squote),
   ("\"", "\\\""),
   ("\\", "\\\\"),
   ("\x07", "\\a"),
   ("\x08", "\\b"),
   ("\x0c", "\\f"),
   ("\x0b", "\\v")]

/-- Embedding of `EventRecorder._escape_char`: `escapes.get(char, char)`. -/
def escape_char (char : String) : String := (escapes.lookup char).getD char

/-- Embedding of the `key_map` dictionary of `EventRecorder._to_arduino_keycode`
(lines 733-776), in source order.  The source dictionary literal lists the
key `TAB` twice with the same value; a second association below would be
shadowed by the first exactly as the duplicate dictionary entry is, so the
list keeps one entry per key. -/
def key_map : List (String × String) :=
  [("ESC", "KEY_ESC"),
   ("ENTER", "KEY_RETURN"),
   ("TAB", "KEY_TAB"),
   ("SPACE", "KEY_SPACE"),
   ("BACKSPACE", "KEY_BACKSPACE"),
   ("DELETE", "KEY_DELETE"),
   ("SHIFT_LEFT", "KEY_LEFT_SHIFT"),
   ("SHIFT_RIGHT", "KEY_RIGHT_SHIFT"),
   ("CTRL_LEFT", "KEY_LEFT_CTRL"),
   ("CTRL_RIGHT", "KEY_RIGHT_CTRL"),
   ("ALT_LEFT", "KEY_LEFT_ALT"),
   ("ALT_RIGHT", "KEY_RIGHT_ALT"),
   ("GUI_LEFT", "KEY_LEFT_GUI"),
   ("GUI_RIGHT", "KEY_RIGHT_GUI"),
   ("UP_ARROW", "KEY_UP_ARROW"),
   ("DOWN_ARROW", "KEY_DOWN_ARROW"),
   ("LEFT_ARROW", "KEY_LEFT_ARROW"),
   ("RIGHT_ARROW", "KEY_RIGHT_ARROW"),
   ("F1", "KEY_F1"),
   ("F2", "KEY_F2"),
   ("F3", "KEY_F3"),
   ("F4", "KEY_F4"),
   ("F5", "KEY_F5"),
   ("F6", "KEY_F6"),
   ("F7", "KEY_F7"),
   ("F8", "KEY_F8"),
   ("F9", "KEY_F9"),
   ("F10", "KEY_F10"),
   ("F11", "KEY_F11"),
   ("F12", "KEY_F12"),
   ("HOME", "KEY_HOME"),
   ("END", "KEY_END"),
   ("PAGE_UP", "KEY_PAGE_UP"),
   ("PAGE_DOWN", "KEY_PAGE_DOWN"),
   ("CAPS_LOCK", "KEY_CAPS_LOCK"),
   ("NUM_LOCK", "KEY_NUM_LOCK"),
   ("PRINT_SCREEN", "KEY_PRINT_SCREEN"),
   ("SCROLL_LOCK", "KEY_SCROLL_LOCK"),
   ("PAUSE", "KEY_PAUSE"),
   ("INSERT", "KEY_INSERT"),
   ("MENU", "KEY_MENU")]

/-- Embedding of `EventRecorder._to_arduino_keycode` (lines 731-781):
a 1-character key becomes a quoted, escaped character literal; otherwise the
`key_map` table is consulted, `none` standing for the `None` return. -/
def to_arduino_keycode (key : String) : Option String :=
  if key.length = 1 then some (squote ++ escape_char key ++ squote)
  else key_map.lookup key

/-- Embedding of the `button_map` dictionary in `export_for_arduino`
(line 603). -/
def button_map : List (String × String) :=
  [("LEFT", "MOUSE_LEFT"), ("RIGHT", "MOUSE_RIGHT"), ("MIDDLE", "MOUSE_MIDDLE")]

/-- The `for m in moves` loop of `export_for_arduino` (lines 596-601): the
first sub-movement keeps the event delay, subsequent ones get delay `0`. -/
def movesToEvents (delay : Int) : List (Int × Int) → List AEvent
  | [] => []
  | m :: rest => AEvent.mouseMove m.1 m.2 delay :: movesToEvents 0 rest

/-- Warning printed for an unmappable key (line 585). -/
def warn_unmapped (key : String) : String :=
  "Aviso: tecla nao mapeada ignorada: " ++ key

/-- Warning printed for an unknown event type (line 617). -/
def warn_unknown (etype : String) : String :=
  "Evento desconhecido ignorado: " ++ etype

/-- Python's `str.startswith`, rendered on the character list so that it is
kernel-reducible (`String.startsWith` itself is position-based and does not
reduce); the two agree on all strings. -/
def py_startswith (s pre : String) : Bool := pre.toList.isPrefixOf s.toList

/-- Python's `str.upper`, rendered as a character-wise map so that it is
kernel-reducible; it agrees with `str.upper` on the ASCII key names this
program produces. -/
def py_upper (s : String) : String := String.mk (s.toList.map Char.toUpper)

/-- Per-event body of the `for event in self.events` loop of
`export_for_arduino` (lines 572-617): returns the instructions appended to
`arduino_events` for this event together with the diagnostics printed for it
(an unmapped key or an unknown event type; an empty diagnostic list means
the event compiled silently). -/
def compileEvent (ev : RecEvent) : List AEvent × List String :=
  if ev.type = "key_down" ∨ ev.type = "key_up" then
    match to_arduino_keycode ev.key with
    | some arduino_key =>
      ([if ev.type = "key_down" then AEvent.keyPress arduino_key ev.delay
        else AEvent.keyRelease arduino_key ev.delay], [])
    | none =>
      if ev.key.length = 1 then
        ([if ev.type = "key_down" then
            AEvent.keyPress (squote ++ escape_char ev.key ++ squote) ev.delay
          else AEvent.keyRelease (squote ++ escape_char ev.key ++ squote) ev.delay], [])
      else ([], [warn_unmapped ev.key])
  else if py_startswith ev.type ("mouse_") then
    if ev.type = "mouse_move" then
      (movesToEvents ev.delay (split_mouse_move ev.dx ev.dy 127), [])
    else if ev.type = "mouse_down" ∨ ev.type = "mouse_up" then
      let button := (button_map.lookup ev.button).getD ("MOUSE_LEFT")
      ([if ev.type = "mouse_down" then AEvent.mousePress button ev.delay
        else AEvent.mouseRelease button ev.delay], [])
    else if ev.type = "mouse_scroll" then
      if ev.dy ≠ 0 then ([AEvent.mouseScroll (ev.dy * 3) ev.delay], [])
      else ([], [])
    else ([], [])
  else if ev.type = "start" ∨ ev.type = "stop" ∨ ev.type = "pause" ∨ ev.type = "resume" then
    ([], [])
  else
    ([], [warn_unknown ev.type])

/-- The whole `for event in self.events` loop of `export_for_arduino`:
instructions and diagnostics of every event, in order. -/
def compileAll : List RecEvent → List AEvent × List String
  | [] => ([], [])
  | ev :: rest =>
    let head := compileEvent ev
    let tail := compileAll rest
    (head.1 ++ tail.1, head.2 ++ tail.2)

/-- The delay post-pass of `export_for_arduino` (lines 620-622): a delay
below 10 ms is rewritten to 0. -/
def denoise (ev : AEvent) : AEvent :=
  if ev.delay < 10 then ev.setDelay 0 else ev

/-- Embedding of `EventRecorder.export_for_arduino` (lines 570-622), up to
the file writes it performs afterwards: compile every recorded event and
then apply the delay post-pass to the compiled instructions. -/
def export_for_arduino (events : List RecEvent) : List AEvent × List String :=
  let compiled := compileAll events
  (compiled.1.map denoise, compiled.2)

/-- The delay-computation loop of `EventRecorder.save_recording`
(lines 499-508), with `last` playing the role of `last_time`: each event
copy gets `delay = t - last_time`, and `last_time` becomes its `t`. -/
def computeDelaysGo (last : Int) : List RecEvent → List RecEvent
  | [] => []
  | ev :: rest => { ev with delay := ev.t - last } :: computeDelaysGo ev.t rest

/-- The delay computation of `save_recording`, started with `last_time = 0`
(line 500), so the first event's delay is its own elapsed time. -/
def computeDelays (events : List RecEvent) : List RecEvent :=
  computeDelaysGo 0 events

/-- The end-to-end timeline of the specification scenario:
start at 0 ms, key-down `a` at 100 ms, key-up `a` at 150 ms, pointer move
`dx = 300, dy = 0` at 400 ms, stop at 450 ms. -/
def demo_timeline : List RecEvent :=
  [{ type := "start", t := 0 },
   { type := "key_down", key := "a", t := 100 },
   { type := "key_up", key := "a", t := 150 },
   { type := "mouse_move", dx := 300, dy := 0, t := 400 },
   { type := "stop", t := 450 }]

/-- C1: compiling the timeline `[start@0, key-down a@100, key-up a@150,
pointer-move dx=300 dy=0 @400, stop@450]`, with per-event delays computed as
differences of elapsed times, yields exactly key-press `a` (delay 100),
key-release `a` (delay 50), pointer-move 127 (delay 250), pointer-move 127
(delay 0), pointer-move 46 (delay 0), with no diagnostics and no instruction
for the start or stop control markers. -/
theorem c1_end_to_end :
    export_for_arduino (computeDelays demo_timeline)
      = ([AEvent.keyPress (squote ++ "a" ++ squote) 100,
          AEvent.keyRelease (squote ++ "a" ++ squote) 50,
          AEvent.mouseMove 127 0 250,
          AEvent.mouseMove 127 0 0,
          AEvent.mouseMove 46 0 0], []) := by decide

theorem computeDelaysGo_sum :
    ∀ (last : Int) (evs : List RecEvent) (h : evs ≠ []),
      ((computeDelaysGo last evs).map RecEvent.delay).sum = (evs.getLast h).t - last
  | _, [], h => absurd rfl h
  | last, [e], _ => by
    simp [computeDelaysGo, List.getLast_singleton]
  | last, e :: f :: rest, _ => by
    have ih := computeDelaysGo_sum e.t (f :: rest) (by simp)
    rw [computeDelaysGo, List.map_cons, List.sum_cons, ih,
      List.getLast_cons (by simp : f :: rest ≠ [])]
    dsimp only
    omega

/-- C3: after the finalize-time delay computation of `save_recording`
(delay of each event = its `t` minus the previous event's `t`, the first
event's delay being its own `t`), the delays of a non-empty sequence sum to
the last event's elapsed time. -/
theorem c3_delay_sum (evs : List RecEvent) (h : evs ≠ []) :
    ((computeDelays evs).map RecEvent.delay).sum = (evs.getLast h).t
  ∧ ((computeDelays evs).headD default).delay = (evs.headD default).t := by
  constructor
  · rw [computeDelays, computeDelaysGo_sum 0 evs h]
    omega
  · cases evs with
    | nil => exact absurd rfl h
    | cons e rest => simp [computeDelays, computeDelaysGo]

/-- Witness for `c3_delay_sum`: on the specification scenario timeline the
delays sum to the last event's elapsed time, 450 ms. -/
theorem c3_delay_sum_witness :
    ((computeDelays demo_timeline).map RecEvent.delay).sum = 450 := by
  rw [(c3_delay_sum demo_timeline (by decide)).1]
  decide

theorem getD_map {α β : Type} (f : α → β) (l : List α) (d : α) :
    ∀ i : Nat, (l.map f).getD i (f d) = f (l.getD i d) := by
  induction l with
  | nil => intro i; simp [List.getD_nil]
  | cons x xs ih =>
    intro i
    cases i with
    | zero => simp [List.getD_cons_zero]
    | succ j => simp [List.getD_cons_succ, ih j]

/-- C8: in the delay post-pass of `export_for_arduino`, a compiled
instruction whose source delay lies in `[0, 10)` ends with delay `0`, and an
instruction whose source delay is at least `10` is kept unchanged. -/
theorem c8_delay_denoise (evs : List RecEvent) (i : Nat)
    (hi : i < (compileAll evs).1.length) :
    (0 ≤ ((compileAll evs).1.getD i default).delay →
      ((compileAll evs).1.getD i default).delay < 10 →
      ((export_for_arduino evs).1.getD i default).delay = 0)
  ∧ (10 ≤ ((compileAll evs).1.getD i default).delay →
      (export_for_arduino evs).1.getD i default = (compileAll evs).1.getD i default) := by
  have hd : denoise (default : AEvent) = (default : AEvent) := rfl
  have hmap : (export_for_arduino evs).1.getD i default
      = denoise ((compileAll evs).1.getD i default) := by
    have hg := getD_map denoise (compileAll evs).1 (default : AEvent) i
    rw [hd] at hg
    exact hg
  rw [hmap]
  constructor
  · intro h0 hlt
    rw [denoise, if_pos hlt]
    cases (compileAll evs).1.getD i default <;> rfl
  · intro hge
    rw [denoise, if_neg (by omega)]

/-- Witness for `c8_delay_denoise`: the first compiled instruction of the
scenario timeline has source delay `100 ≥ 10` and passes the post-pass
unchanged. -/
theorem c8_delay_denoise_witness :
    (export_for_arduino (computeDelays demo_timeline)).1.getD 0 default
      = (compileAll (computeDelays demo_timeline)).1.getD 0 default :=
  (c8_delay_denoise (computeDelays demo_timeline) 0 (by decide)).2 (by decide)

/-- C9: a `mouse_scroll` canonical event with nonzero vertical delta compiles
to a single scroll instruction whose amount is the delta times 3, and a
scroll event whose resulting amount is zero produces no instruction. -/
theorem c9_scroll (ev : RecEvent) (h : ev.type = "mouse_scroll") :
    (ev.dy ≠ 0 → compileEvent ev = ([AEvent.mouseScroll (ev.dy * 3) ev.delay], []))
  ∧ (ev.dy * 3 = 0 → compileEvent ev = ([], [])) := by
  constructor
  · intro hdy
    rw [compileEvent]
    rw [if_neg (by rw [h]; decide), if_pos (by rw [h]; decide),
      if_neg (by rw [h]; decide), if_neg (by rw [h]; decide),
      if_pos h, if_pos hdy]
  · intro hq
    have hdy : ev.dy = 0 := by omega
    rw [compileEvent]
    rw [if_neg (by rw [h]; decide), if_pos (by rw [h]; decide),
      if_neg (by rw [h]; decide), if_neg (by rw [h]; decide),
      if_pos h, if_neg (by omega)]

/-- Witness for `c9_scroll`: a scroll of `dy = -2` with delay 40 compiles to
one scroll instruction of amount `-6`. -/
theorem c9_scroll_witness :
    compileEvent { type := "mouse_scroll", t := 0, dy := -2, delay := 40 }
      = ([AEvent.mouseScroll (-6) 40], []) := by
  have hc := (c9_scroll { type := "mouse_scroll", t := 0, dy := -2, delay := 40 }
      rfl).1 (by decide)
  simpa using hc

theorem lookup_mem_keys (k v : String) :
    ∀ (l : List (String × String)), l.lookup k = some v → k ∈ l.map Prod.fst := by
  intro l
  induction l with
  | nil => intro h; simp [List.lookup] at h
  | cons p t ih =>
    obtain ⟨a, b⟩ := p
    intro h
    simp only [List.lookup] at h
    cases hk : (k == a) with
    | true =>
      have hka : k = a := by simpa using hk
      simp [hka]
    | false =>
      rw [hk] at h
      simp only [List.map_cons, List.mem_cons]
      exact Or.inr (ih h)

theorem key_map_no_single_char : ∀ k ∈ key_map.map Prod.fst, k.length ≠ 1 := by decide

/-- C7: a key-down/key-up event whose key has a `key_map` entry compiles to
an instruction carrying that device keycode; a key with no table entry that
is a single character compiles to a quoted character literal; any other key
produces no instruction and one diagnostic; and compilation of the remaining
events always continues (the loop output for `ev :: rest` is the output for
`ev` followed by the output for `rest`). -/
theorem c7_key_mapping (ev : RecEvent) (rest : List RecEvent)
    (h : ev.type = "key_down" ∨ ev.type = "key_up") :
    (∀ kc, key_map.lookup ev.key = some kc →
        compileEvent ev
          = ([if ev.type = "key_down" then AEvent.keyPress kc ev.delay
              else AEvent.keyRelease kc ev.delay], []))
  ∧ (key_map.lookup ev.key = none → ev.key.length = 1 →
        compileEvent ev
          = ([if ev.type = "key_down" then
                AEvent.keyPress (squote ++ escape_char ev.key ++ squote) ev.delay
              else AEvent.keyRelease (squote ++ escape_char ev.key ++ squote) ev.delay], []))
  ∧ (key_map.lookup ev.key = none → ev.key.length ≠ 1 →
        compileEvent ev = ([], [warn_unmapped ev.key]))
  ∧ (compileAll (ev :: rest)).1 = (compileEvent ev).1 ++ (compileAll rest).1
  ∧ (compileAll (ev :: rest)).2 = (compileEvent ev).2 ++ (compileAll rest).2 := by
  refine ⟨?_, ?_, ?_, rfl, rfl⟩
  · intro kc hkc
    have hlen : ev.key.length ≠ 1 :=
      key_map_no_single_char ev.key (lookup_mem_keys ev.key kc key_map hkc)
    rw [compileEvent, if_pos h, to_arduino_keycode, if_neg hlen, hkc]
  · intro hnone hlen1
    rw [compileEvent, if_pos h, to_arduino_keycode, if_pos hlen1]
  · intro hnone hlen
    rw [compileEvent, if_pos h, to_arduino_keycode, if_neg hlen, hnone, if_neg hlen]

/-- Witness for `c7_key_mapping`: a key-down of `HOME` compiles to a press of
the `KEY_HOME` keycode. -/
theorem c7_key_mapping_witness :
    compileEvent { type := "key_down", key := "HOME", t := 0 }
      = ([AEvent.keyPress ("KEY_HOME") 0], []) := by
  have hc := (c7_key_mapping { type := "key_down", key := "HOME", t := 0 } []
      (Or.inl rfl)).1 ("KEY_HOME") (by decide)
  simpa using hc

/-- A pynput key as seen by the listener callbacks: either a `KeyCode` with a
printable character (`key.char`), or a special `Key` (named constant, e.g.
`Key.shift`).  A `KeyCode` without a character is not modelled; no claim
involves one. -/
inductive PKey where
  | keyCode (c : Char)
  | special (name : String)
deriving DecidableEq

/-- The four boolean modifier flags of `self.active_modifiers`
(lines 96-101). -/
structure ModifierFlags where
  SHIFT : Bool := false
  CTRL : Bool := false
  ALT : Bool := false
  GUI : Bool := false
deriving DecidableEq

/-- The recorder state touched by the claims: the event list, the
`is_recording` / `paused` flags, the `current_modifiers` set (modelled as a
duplicate-free list: the code only adds a key after a membership check) and
the `active_modifiers` flags. -/
structure Recorder where
  events : List RecEvent := []
  is_recording : Bool := false
  paused : Bool := false
  current_modifiers : List String := []
  active_modifiers : ModifierFlags := {}
deriving DecidableEq

/-- Embedding of `EventRecorder._add_event` (lines 239-242): the event is
appended only while recording and not paused. -/
def add_event (r : Recorder) (event : RecEvent) : Recorder :=
  if r.is_recording && !r.paused then { r with events := r.events ++ [event] } else r

/-- Embedding of `EventRecorder._add_key_event` (lines 244-256) with
`key_obj = None` or a plain key: builds the `key_{event_type}` dictionary
with the current elapsed time `now` and hands it to `add_event`. -/
def add_key_event (r : Recorder) (event_type key_str : String) (now : Int) : Recorder :=
  add_event r { type := "key_" ++ event_type, key := key_str, t := now }

/-- The set of pynput modifier keys of `EventRecorder._is_modifier`
(lines 258-266), by pynput `Key` attribute name. -/
def modifier_keys : List String :=
  ["shift", "shift_r", "shift_l", "ctrl", "ctrl_l", "ctrl_r",
   "alt", "alt_l", "alt_r", "cmd", "cmd_l", "cmd_r"]

/-- Embedding of `EventRecorder._is_modifier`: only special keys from the
modifier set qualify; a `KeyCode` is never one. -/
def is_modifier : PKey → Bool
  | PKey.keyCode _ => false
  | PKey.special name => modifier_keys.contains name

/-- Embedding of `EventRecorder._update_modifier_state` (lines 268-278):
substring tests on the upper-cased key string select which flag follows
`pressed`. -/
def update_modifier_state (flags : ModifierFlags) (key_str : String) (pressed : Bool) :
    ModifierFlags :=
  let key_upper := py_upper key_str
  if ("SHIFT".toList) <:+: key_upper.toList then { flags with SHIFT := pressed }
  else if ("CTRL".toList) <:+: key_upper.toList then { flags with CTRL := pressed }
  else if ("ALT".toList) <:+: key_upper.toList then { flags with ALT := pressed }
  else if ("GUI".toList) <:+: key_upper.toList ∨ ("CMD".toList) <:+: key_upper.toList then
    { flags with GUI := pressed }
  else flags

/-- The `special_chars` dictionary of `EventRecorder._key_to_str`
(lines 284-292). -/
def special_chars : List (Char × String) :=
  [('\t', "TAB"), ('\n', "ENTER"), ('\r', "ENTER"), (' ', "SPACE"),
   ('\x1b', "ESC"), ('\x08', "BACKSPACE"), ('\x7f', "DELETE")]

/-- The `arduino_map` dictionary of `EventRecorder._key_to_str`
(lines 298-344), mapping pynput `Key` names to canonical key strings. -/
def arduino_map : List (String × String) :=
  [("esc", "ESC"),
   ("enter", "ENTER"),
   ("tab", "TAB"),
   ("space", "SPACE"),
   ("backspace", "BACKSPACE"),
   ("delete", "DELETE"),
   ("shift", "SHIFT_LEFT"),
   ("shift_r", "SHIFT_RIGHT"),
   ("shift_l", "SHIFT_LEFT"),
   ("ctrl", "CTRL_LEFT"),
   ("ctrl_r", "CTRL_RIGHT"),
   ("ctrl_l", "CTRL_LEFT"),
   ("alt", "ALT_LEFT"),
   ("alt_r", "ALT_RIGHT"),
   ("alt_l", "ALT_LEFT"),
   ("cmd", "GUI_LEFT"),
   ("cmd_r", "GUI_RIGHT"),
   ("cmd_l", "GUI_LEFT"),
   ("up", "UP_ARROW"),
   ("down", "DOWN_ARROW"),
   ("left", "LEFT_ARROW"),
   ("right", "RIGHT_ARROW"),
   ("f1", "F1"),
   ("f2", "F2"),
   ("f3", "F3"),
   ("f4", "F4"),
   ("f5", "F5"),
   ("f6", "F6"),
   ("f7", "F7"),
   ("f8", "F8"),
   ("f9", "F9"),
   ("f10", "F10"),
   ("f11", "F11"),
   ("f12", "F12"),
   ("home", "HOME"),
   ("end", "END"),
   ("page_up", "PAGE_UP"),
   ("page_down", "PAGE_DOWN"),
   ("caps_lock", "CAPS_LOCK"),
   ("num_lock", "NUM_LOCK"),
   ("print_screen", "PRINT_SCREEN"),
   ("scroll_lock", "SCROLL_LOCK"),
   ("pause", "PAUSE"),
   ("insert", "INSERT"),
   ("menu", "MENU")]

/-- Embedding of `EventRecorder._key_to_str` (lines 280-347): a `KeyCode`
with a character goes through `special_chars` (default: the character
itself); a special `Key` goes through `arduino_map` (default: the
upper-cased name). -/
def key_to_str : PKey → String
  | PKey.keyCode c => (special_chars.lookup c).getD c.toString
  | PKey.special name => (arduino_map.lookup name).getD (py_upper name)

/-- The `shift_map` dictionary of `EventRecorder._on_key_press`
(lines 377-383); the four characters that the scanner treats specially
(backquote, quote, braces) are written with `Char.ofNat`. -/
def shift_map : List (Char × Char) :=
  [(Char.ofNat 96, '~'), ('1', '!'), ('2', '@'), ('3', '#'), ('4', '$'),
   ('5', '%'), ('6', '^'), ('7', '&'), ('8', '*'), ('9', '('),
   ('0', ')'), ('-', '_'), ('=', '+'), ('[', Char.ofNat 123), (']', Char.ofNat 125),
   ('\\', '|'), (';', ':'), (Char.ofNat 39, '"'), (',', '<'), ('.', '>'),
   ('/', '?')]

/-- Embedding of `EventRecorder.pause_recording` (lines 182-201): toggle the
`paused` flag, then hand a pause or resume marker to `add_event` depending
on the new flag value. -/
def pause_recording (r : Recorder) (now : Int) : Recorder :=
  if !r.is_recording then r
  else
    let r1 := { r with paused := !r.paused }
    if r1.paused then add_event r1 { type := "pause", t := now }
    else add_event r1 { type := "resume", t := now }

/-- Embedding of `EventRecorder.stop_recording` (lines 203-231): synthesize
a key-up for every currently-down modifier, hand a stop marker to
`add_event`, then clear the `is_recording` / `paused` flags.  All elapsed
times read during the call are the single instant `now`. -/
def stop_recording (r : Recorder) (now : Int) : Recorder :=
  if !r.is_recording then r
  else
    { add_event
        (r.current_modifiers.foldl (fun acc m => add_key_event acc ("up") m now) r)
        { type := "stop", t := now } with
      is_recording := false, paused := false }

/-- Embedding of `EventRecorder._on_key_press` (lines 349-388): ESC stops,
F1 toggles pause, a modifier key is debounced and tracked, and a character
key is resolved through the SHIFT state (uppercase for letters, the
`shift_map` table otherwise) before being recorded. -/
def on_key_press (r : Recorder) (k : PKey) (now : Int) : Recorder :=
  if !r.is_recording || r.paused then r
  else
    let key_str := key_to_str k
    if k = PKey.special ("esc") then stop_recording r now
    else if k = PKey.special ("f1") then pause_recording r now
    else if is_modifier k then
      if key_str ∈ r.current_modifiers then r
      else
        let r1 := { r with
          current_modifiers := r.current_modifiers ++ [key_str],
          active_modifiers := update_modifier_state r.active_modifiers key_str true }
        add_key_event r1 ("down") key_str now
    else
      let key_str2 :=
        match k with
        | PKey.keyCode c =>
          if r.active_modifiers.SHIFT && c.isAlpha then c.toUpper.toString
          else if r.active_modifiers.SHIFT then ((shift_map.lookup c).getD c).toString
          else c.toString
        | PKey.special _ => key_str
      add_key_event r ("down") key_str2 now

/-- Embedding of `EventRecorder._on_key_release` (lines 390-404): a tracked
modifier is removed from the set and its flag cleared before the key-up is
recorded; an untracked modifier is ignored; any other key records a key-up
directly. -/
def on_key_release (r : Recorder) (k : PKey) (now : Int) : Recorder :=
  if !r.is_recording || r.paused then r
  else
    let key_str := key_to_str k
    if is_modifier k then
      if key_str ∈ r.current_modifiers then
        let r1 := { r with
          current_modifiers := r.current_modifiers.erase key_str,
          active_modifiers := update_modifier_state r.active_modifiers key_str false }
        add_key_event r1 ("up") key_str now
      else r
    else add_key_event r ("up") key_str now

theorem add_event_recording (r : Recorder) (e : RecEvent)
    (h1 : r.is_recording = true) (h2 : r.paused = false) :
    add_event r e = { r with events := r.events ++ [e] } := by
  rw [add_event, if_pos (by simp [h1, h2])]

theorem foldl_add_key_event (now : Int) :
    ∀ (mods : List String) (r : Recorder),
      r.is_recording = true → r.paused = false →
      mods.foldl (fun acc m => add_key_event acc ("up") m now) r
        = { r with events := r.events
              ++ mods.map (fun m => { type := "key_up", key := m, t := now }) } := by
  intro mods
  induction mods with
  | nil => intro r _ _; simp
  | cons m ms ih =>
    intro r h1 h2
    rw [List.foldl_cons]
    have hstep : add_key_event r ("up") m now
        = { r with events := r.events ++ [{ type := "key_up", key := m, t := now }] } := by
      rw [add_key_event, add_event_recording r _ h1 h2]
      simp
    rw [hstep,
      ih { r with events := r.events ++ [{ type := "key_up", key := m, t := now }] } h1 h2]
    simp

/-- C4: stopping an unpaused recording session while the modifier `m` is
still held (i.e. `m` is in `current_modifiers`) appends a synthesized
`key_up` event for `m` to the timeline, and that key-up precedes the `stop`
marker: the final timeline is the old one followed by one key-up per held
modifier followed by the stop marker. -/
theorem c4_stuck_key_release (r : Recorder) (now : Int) (m : String)
    (hrec : r.is_recording = true) (hp : r.paused = false)
    (hm : m ∈ r.current_modifiers) :
    (stop_recording r now).events
      = r.events
        ++ r.current_modifiers.map (fun k => { type := "key_up", key := k, t := now })
        ++ [{ type := "stop", t := now }]
  ∧ ∃ l1 l2, r.current_modifiers.map (fun k =>
        ({ type := "key_up", key := k, t := now } : RecEvent))
      = l1 ++ ({ type := "key_up", key := m, t := now } : RecEvent) :: l2 := by
  constructor
  · rw [stop_recording, if_neg (by simp [hrec])]
    rw [foldl_add_key_event now r.current_modifiers r hrec hp]
    dsimp only
    rw [add_event_recording
      { r with events := r.events
          ++ r.current_modifiers.map (fun k => { type := "key_up", key := k, t := now }) }
      { type := "stop", t := now } hrec hp]
  · obtain ⟨s, u, hsu⟩ := List.append_of_mem hm
    refine ⟨s.map (fun k => { type := "key_up", key := k, t := now }),
      u.map (fun k => { type := "key_up", key := k, t := now }), ?_⟩
    rw [hsu, List.map_append, List.map_cons]

/-- A recorder in the middle of an unpaused recording session with the left
CTRL key held down. -/
def demo_rec : Recorder :=
  { events := [{ type := "start", t := 0 }],
    is_recording := true,
    current_modifiers := ["CTRL_LEFT"],
    active_modifiers := { CTRL := true } }

/-- Witness for `c4_stuck_key_release`: stopping `demo_rec` at 500 ms appends
the synthesized `CTRL_LEFT` key-up and then the stop marker. -/
theorem c4_stuck_key_release_witness :
    (stop_recording demo_rec 500).events
      = demo_rec.events
        ++ demo_rec.current_modifiers.map (fun k => { type := "key_up", key := k, t := 500 })
        ++ [{ type := "stop", t := 500 }] :=
  (c4_stuck_key_release demo_rec 500 ("CTRL_LEFT") rfl rfl (by decide)).1

/-- C5 fails on the code: toggling an unpaused recording session to Paused
appends NO pause marker, because `pause_recording` flips `self.paused` to
`True` before calling `_add_event`, whose guard then drops the freshly built
pause event; toggling back from Paused to Recording does append the resume
marker (the flag is flipped back to `False` first).  Evaluated at the
concrete recording-state recorder `demo_rec`. -/
theorem c5_pause_marker_dropped :
    (pause_recording demo_rec 300).events = demo_rec.events
  ∧ (pause_recording demo_rec 300).paused = true
  ∧ (pause_recording (pause_recording demo_rec 300) 400).events
      = demo_rec.events ++ [{ type := "resume", t := 400 }]
  ∧ (pause_recording (pause_recording demo_rec 300) 400).paused = false := by
  refine ⟨?_, ?_, ?_, ?_⟩ <;> decide

theorem on_key_press_keyCode (r : Recorder) (c : Char) (now : Int)
    (hrec : r.is_recording = true) (hp : r.paused = false) :
    on_key_press r (PKey.keyCode c) now
      = add_key_event r ("down")
          (if r.active_modifiers.SHIFT && c.isAlpha then c.toUpper.toString
           else if r.active_modifiers.SHIFT then ((shift_map.lookup c).getD c).toString
           else c.toString) now := by
  rw [on_key_press]
  rw [if_neg (by simp [hrec, hp])]
  rw [if_neg (fun hcc => PKey.noConfusion hcc)]
  rw [if_neg (fun hcc => PKey.noConfusion hcc)]
  rw [if_neg (by simp [is_modifier])]

theorem shift_left_clears_flag (fl : ModifierFlags) :
    (update_modifier_state fl ("SHIFT_LEFT") false).SHIFT = false := by
  rw [update_modifier_state]
  rw [if_pos (by decide)]

theorem add_key_event_down_events (r : Recorder) (s : String) (now : Int)
    (hrec : r.is_recording = true) (hp : r.paused = false) :
    (add_key_event r ("down") s now).events
      = r.events ++ [{ type := "key_down", key := s, t := now }] := by
  rw [add_key_event, add_event_recording r _ hrec hp]
  have hk : ("key_" ++ "down" : String) = "key_down" := by decide
  rw [hk]

/-- C6: while the SHIFT flag is active, pressing `1` records the logical key
`!` and pressing `a` records `A`; in general an alphabetic character is
uppercased and a character with a `shift_map` entry is substituted; and
after SHIFT is released the flag is cleared, so a subsequent press of `1`
records `1`. -/
theorem c6_shift_resolution (r : Recorder) (now : Int)
    (hrec : r.is_recording = true) (hp : r.paused = false)
    (hs : r.active_modifiers.SHIFT = true)
    (hm : "SHIFT_LEFT" ∈ r.current_modifiers) :
    (on_key_press r (PKey.keyCode ('1')) now).events
      = r.events ++ [{ type := "key_down", key := "!", t := now }]
  ∧ (on_key_press r (PKey.keyCode ('a')) now).events
      = r.events ++ [{ type := "key_down", key := "A", t := now }]
  ∧ (∀ c : Char, c.isAlpha = true →
      (on_key_press r (PKey.keyCode c) now).events
        = r.events ++ [{ type := "key_down", key := c.toUpper.toString, t := now }])
  ∧ (∀ c c' : Char, c.isAlpha = false → shift_map.lookup c = some c' →
      (on_key_press r (PKey.keyCode c) now).events
        = r.events ++ [{ type := "key_down", key := c'.toString, t := now }])
  ∧ ((on_key_release r (PKey.special ("shift")) now).active_modifiers.SHIFT = false
     ∧ (on_key_press (on_key_release r (PKey.special ("shift")) now)
          (PKey.keyCode ('1')) now).events
        = (on_key_release r (PKey.special ("shift")) now).events
          ++ [{ type := "key_down", key := "1", t := now }]) := by
  have halpha : ∀ c : Char, c.isAlpha = true →
      (on_key_press r (PKey.keyCode c) now).events
        = r.events ++ [{ type := "key_down", key := c.toUpper.toString, t := now }] := by
    intro c hc
    rw [on_key_press_keyCode r c now hrec hp]
    rw [if_pos (by simp [hs, hc])]
    rw [add_key_event_down_events r _ now hrec hp]
  have htable : ∀ c c' : Char, c.isAlpha = false → shift_map.lookup c = some c' →
      (on_key_press r (PKey.keyCode c) now).events
        = r.events ++ [{ type := "key_down", key := c'.toString, t := now }] := by
    intro c c' hc hcc
    rw [on_key_press_keyCode r c now hrec hp]
    rw [if_neg (by rw [hs, hc]; decide), if_pos hs]
    rw [add_key_event_down_events r _ now hrec hp, hcc]
    rfl
  have hks : key_to_str (PKey.special ("shift")) = "SHIFT_LEFT" := by decide
  have hmod : is_modifier (PKey.special ("shift")) = true := by decide
  have hku : ("key_" ++ "up" : String) = "key_up" := by decide
  have hfull : on_key_release r (PKey.special ("shift")) now
      = { r with
          events := r.events ++ [{ type := "key_up", key := "SHIFT_LEFT", t := now }],
          current_modifiers := r.current_modifiers.erase ("SHIFT_LEFT"),
          active_modifiers :=
            update_modifier_state r.active_modifiers ("SHIFT_LEFT") false } := by
    rw [on_key_release, if_neg (by simp [hrec, hp])]
    dsimp only
    rw [hks, if_pos hmod, if_pos hm]
    rw [add_key_event,
      add_event_recording
        { r with
          current_modifiers := r.current_modifiers.erase ("SHIFT_LEFT"),
          active_modifiers :=
            update_modifier_state r.active_modifiers ("SHIFT_LEFT") false }
        { type := "key_" ++ "up", key := "SHIFT_LEFT", t := now } hrec hp]
    rw [hku]
  refine ⟨?_, ?_, halpha, htable, ?_, ?_⟩
  · rw [htable ('1') ('!') (by decide) (by decide)]
    have hb : ('!').toString = "!" := by decide
    rw [hb]
  · rw [halpha ('a') (by decide)]
    have hb : ('a').toUpper.toString = "A" := by decide
    rw [hb]
  · rw [hfull]
    exact shift_left_clears_flag r.active_modifiers
  · rw [hfull]
    set r2 : Recorder := { r with
        events := r.events ++ [{ type := "key_up", key := "SHIFT_LEFT", t := now }],
        current_modifiers := r.current_modifiers.erase ("SHIFT_LEFT"),
        active_modifiers :=
          update_modifier_state r.active_modifiers ("SHIFT_LEFT") false } with hr2
    have hrec2 : r2.is_recording = true := hrec
    have hp2 : r2.paused = false := hp
    have hsf2 : r2.active_modifiers.SHIFT = false :=
      shift_left_clears_flag r.active_modifiers
    rw [on_key_press_keyCode r2 ('1') now hrec2 hp2]
    rw [if_neg (by rw [hsf2]; decide), if_neg (by rw [hsf2]; decide)]
    rw [add_key_event_down_events r2 _ now hrec2 hp2]
    have hb : ('1').toString = "1" := by decide
    rw [hb]

/-- A recorder in an unpaused recording session with the left SHIFT key held
down and its flag active. -/
def demo_shift_rec : Recorder :=
  { events := [],
    is_recording := true,
    current_modifiers := ["SHIFT_LEFT"],
    active_modifiers := { SHIFT := true } }

/-- Witness for `c6_shift_resolution`: on `demo_shift_rec`, pressing `1`
records the logical key `!`. -/
theorem c6_shift_resolution_witness :
    (on_key_press demo_shift_rec (PKey.keyCode ('1')) 200).events
      = demo_shift_rec.events ++ [{ type := "key_down", key := "!", t := 200 }] :=
  (c6_shift_resolution demo_shift_rec 200 rfl rfl rfl (by decide)).1
